import Mathlib

/-!
Verification of the `gocircular` ring buffer against its specification.

The Go type `Buffer[T]` (file `circular.go`) is embedded shallowly: the backing
slice `buf` becomes a `List T` whose length is the capacity, the read position
`r` and the element count `n` become natural numbers, and the Go zero value of
the element type becomes `default` of an `Inhabited` instance.  Mutating
methods become functions returning the new state (paired with the Go return
values); the two panicking entry points (`New`, `Resize`) return `Option`,
with `none` standing for the panic.  Iterator views (`All`, `Values`,
`Backward`, `Do`) are embedded as the full list of pairs/values they yield to
a consumer that never stops early; they read the state and produce no new one.
-/

namespace Gocircular

/-- State of `Buffer[T]`: `buf` is the backing slice (pre-allocated to
capacity, so `buf.length` is the capacity), `r` the read position (front
index), `n` the number of elements. -/
structure Buffer (T : Type) where
  buf : List T
  r : Nat
  n : Nat
  deriving DecidableEq

/-- `New` creates a buffer with the given capacity; Go panics (here: `none`)
if `capacity < 1`, else returns a zeroed backing store with `r = 0`, `n = 0`. -/
def New (T : Type) [Inhabited T] (capacity : Int) : Option (Buffer T) :=
  if capacity < 1 then none
  else some { buf := List.replicate capacity.toNat default, r := 0, n := 0 }

variable {T : Type}

/-- `PushBack` adds an element at the back.  If full, the read position is
advanced first (evicting the front) and the write lands on the vacated slot;
the returned flag reports whether an element was overwritten. -/
def Buffer.PushBack (b : Buffer T) (v : T) : Buffer T × Bool :=
  let c := b.buf.length
  if b.n = c then
    ({ buf := b.buf.set (((b.r + 1) % c + b.n - 1) % c) v, r := (b.r + 1) % c, n := b.n }, true)
  else
    ({ buf := b.buf.set ((b.r + (b.n + 1) - 1) % c) v, r := b.r, n := b.n + 1 }, false)

/-- `PushFront` adds an element at the front: the read position moves back by
one (mod capacity) and the value is written there; if full, the back element
is evicted and the flag is `true`. -/
def Buffer.PushFront (b : Buffer T) (v : T) : Buffer T × Bool :=
  let c := b.buf.length
  let r1 := (b.r + c - 1) % c
  if b.n = c then ({ buf := b.buf.set r1 v, r := r1, n := b.n }, true)
  else ({ buf := b.buf.set r1 v, r := r1, n := b.n + 1 }, false)

/-- `PopBack` removes and returns the back element, clearing the vacated slot;
on an empty buffer it returns the zero value and `false` without mutating. -/
def Buffer.PopBack [Inhabited T] (b : Buffer T) : Buffer T × T × Bool :=
  if b.n = 0 then (b, default, false)
  else
    let c := b.buf.length
    let i := (b.r + b.n - 1) % c
    ({ buf := b.buf.set i default, r := b.r, n := b.n - 1 }, b.buf.getD i default, true)

/-- `PopFront` removes and returns the front element, clearing the vacated
slot and advancing the read position; empty case as in `PopBack`. -/
def Buffer.PopFront [Inhabited T] (b : Buffer T) : Buffer T × T × Bool :=
  if b.n = 0 then (b, default, false)
  else
    let c := b.buf.length
    ({ buf := b.buf.set b.r default, r := (b.r + 1) % c, n := b.n - 1 },
      b.buf.getD b.r default, true)

/-- `Front` peeks at the front element. -/
def Buffer.Front [Inhabited T] (b : Buffer T) : T × Bool :=
  if b.n = 0 then (default, false) else (b.buf.getD b.r default, true)

/-- `Back` peeks at the back element. -/
def Buffer.Back [Inhabited T] (b : Buffer T) : T × Bool :=
  if b.n = 0 then (default, false)
  else (b.buf.getD ((b.r + b.n - 1) % b.buf.length) default, true)

/-- `At` reads the element at logical index `i` (an `Int`, as Go's `int` may
be negative); out of bounds yields the zero value and `false`. -/
def Buffer.At [Inhabited T] (b : Buffer T) (i : Int) : T × Bool :=
  if i < 0 ∨ (b.n : Int) ≤ i then (default, false)
  else (b.buf.getD ((b.r + i.toNat) % b.buf.length) default, true)

/-- `Set` writes `v` at logical index `i`; out of bounds leaves the state
unchanged and returns `false`. -/
def Buffer.Set (b : Buffer T) (i : Int) (v : T) : Buffer T × Bool :=
  if i < 0 ∨ (b.n : Int) ≤ i then (b, false)
  else ({ b with buf := b.buf.set ((b.r + i.toNat) % b.buf.length) v }, true)

/-- `Len` returns the element count. -/
def Buffer.Len (b : Buffer T) : Nat := b.n

/-- `Cap` returns the capacity. -/
def Buffer.Cap (b : Buffer T) : Nat := b.buf.length

/-- `Empty` tests for zero elements. -/
def Buffer.Empty (b : Buffer T) : Bool := b.n == 0

/-- `Full` tests for a buffer at capacity. -/
def Buffer.Full (b : Buffer T) : Bool := b.n == b.buf.length

/-- `Clear` overwrites every live slot with the zero value and resets
`r = 0`, `n = 0`; the loop over `i < n` is the Go `for` loop. -/
def Buffer.Clear [Inhabited T] (b : Buffer T) : Buffer T :=
  let c := b.buf.length
  { buf := (List.range b.n).foldl (fun acc i => acc.set ((b.r + i) % c) (default : T)) b.buf,
    r := 0, n := 0 }

/-- `ToSlice` collects the live elements front-to-back into a fresh slice. -/
def Buffer.ToSlice [Inhabited T] (b : Buffer T) : List T :=
  (List.range b.n).map (fun i => b.buf.getD ((b.r + i) % b.buf.length) default)

/-- `All` yields `(index, value)` pairs front-to-back; embedded as the full
sequence delivered to a consumer that never stops. -/
def Buffer.All [Inhabited T] (b : Buffer T) : List (Nat × T) :=
  (List.range b.n).map (fun i => (i, b.buf.getD ((b.r + i) % b.buf.length) default))

/-- `Values` yields the values front-to-back. -/
def Buffer.Values [Inhabited T] (b : Buffer T) : List T :=
  (List.range b.n).map (fun i => b.buf.getD ((b.r + i) % b.buf.length) default)

/-- `Backward` yields `(index, value)` pairs from back to front; the Go loop
runs `i = n-1, …, 0`, so the index list is `(List.range n).reverse`. -/
def Buffer.Backward [Inhabited T] (b : Buffer T) : List (Nat × T) :=
  ((List.range b.n).reverse).map (fun i => (i, b.buf.getD ((b.r + i) % b.buf.length) default))

/-- Elements delivered to the callback of `Do`, which stops after the first
element on which `f` returns `false` (that element is still delivered). -/
def visit (f : T → Bool) : List T → List T
  | [] => []
  | x :: xs => if f x then x :: visit f xs else [x]

/-- `Do` applies `f` front-to-back with early stop; embedded as the list of
visited elements (the state is read, never written). -/
def Buffer.Do [Inhabited T] (b : Buffer T) (f : T → Bool) : List T :=
  visit f b.Values

/-- The private Go method `resize`: allocate a zeroed store of length `m`,
copy the `n` live elements to positions `0..n-1`, reset `r = 0`. -/
def Buffer.resize [Inhabited T] (b : Buffer T) (m : Nat) : Buffer T :=
  let c := b.buf.length
  { buf := (List.range b.n).foldl
      (fun acc i => acc.set i (b.buf.getD ((b.r + i) % c) default))
      (List.replicate m (default : T)),
    r := 0, n := b.n }

/-- `Resize` panics (here: `none`) if `m < 1`; is a no-op if `m` equals the
capacity; otherwise truncates the count to `m` when shrinking below it and
reallocates via `resize`. -/
def Buffer.Resize [Inhabited T] (b : Buffer T) (m : Int) : Option (Buffer T) :=
  if m < 1 then none
  else if m = (b.buf.length : Int) then some b
  else if m < (b.n : Int) then some (Buffer.resize { b with n := m.toNat } m.toNat)
  else some (b.resize m.toNat)

/-- `Clone` builds a fresh buffer of the same capacity with `r = 0`, copying
the live elements to positions `0..n-1`; the rest of the new store is zeroed
by allocation. -/
def Buffer.Clone [Inhabited T] (b : Buffer T) : Buffer T :=
  let c := b.buf.length
  { buf := (List.range b.n).foldl
      (fun acc i => acc.set i (b.buf.getD ((b.r + i) % c) default))
      (List.replicate c (default : T)),
    r := 0, n := b.n }

/-- The global invariant of the data model: capacity at least 1, read position
and count in range, and every physical slot outside the live logical range
`[read, read+count) mod C` holds the element type's default value. -/
def Inv [Inhabited T] (b : Buffer T) : Prop :=
  1 ≤ b.buf.length ∧ b.r < b.buf.length ∧ b.n ≤ b.buf.length ∧
  ∀ j, j < b.buf.length → (∀ i, i < b.n → (b.r + i) % b.buf.length ≠ j) →
    b.buf.getD j default = default

instance [Inhabited T] [DecidableEq T] (b : Buffer T) : Decidable (Inv b) := by
  unfold Inv; infer_instance

/-- Buffer states reachable through the public mutating interface, starting
from a successful `New`.  The read-only operations (`Front`, `Back`, `At`,
`Len`, `Cap`, `Empty`, `Full`, `ToSlice`, `All`, `Values`, `Backward`, `Do`)
are pure in this embedding and do not produce a state. -/
inductive Reachable [Inhabited T] : Buffer T → Prop where
  | new (cap : Int) (b : Buffer T) : New T cap = some b → Reachable b
  | pushBack (b : Buffer T) (v : T) : Reachable b → Reachable (b.PushBack v).1
  | pushFront (b : Buffer T) (v : T) : Reachable b → Reachable (b.PushFront v).1
  | popBack (b : Buffer T) : Reachable b → Reachable b.PopBack.1
  | popFront (b : Buffer T) : Reachable b → Reachable b.PopFront.1
  | set (b : Buffer T) (i : Int) (v : T) : Reachable b → Reachable (b.Set i v).1
  | clear (b : Buffer T) : Reachable b → Reachable b.Clear
  | resize (b : Buffer T) (m : Int) (b2 : Buffer T) :
      Reachable b → b.Resize m = some b2 → Reachable b2
  | clone (b : Buffer T) : Reachable b → Reachable b.Clone

/-! ### List helpers -/

theorem getD_set_self (l : List T) (i : Nat) (v d : T) (h : i < l.length) :
    (l.set i v).getD i d = v := by
  induction l generalizing i with
  | nil => simp at h
  | cons a t ih =>
    cases i with
    | zero => simp [List.getD]
    | succ k => simpa [List.getD] using ih k (by simpa using h)

theorem getD_set_ne (l : List T) (i j : Nat) (v d : T) (h : i ≠ j) :
    (l.set i v).getD j d = l.getD j d := by
  induction l generalizing i j with
  | nil => simp
  | cons a t ih =>
    cases i with
    | zero =>
      cases j with
      | zero => exact absurd rfl h
      | succ k => simp [List.getD]
    | succ m =>
      cases j with
      | zero => simp [List.getD]
      | succ k => simpa [List.getD] using ih m k (by omega)

theorem set_getD_self (l : List T) (i : Nat) (d : T) (h : i < l.length) :
    l.set i (l.getD i d) = l := by
  induction l generalizing i with
  | nil => simp at h
  | cons a t ih =>
    cases i with
    | zero => simp [List.getD]
    | succ k => simpa [List.getD] using ih k (by simpa using h)

theorem getD_replicate (m j : Nat) (d : T) : (List.replicate m d).getD j d = d := by
  induction m generalizing j with
  | zero => simp [List.getD]
  | succ k ih =>
    cases j with
    | zero => simp [List.replicate, List.getD]
    | succ j' => simp [List.replicate, List.getD]

/-! ### Modular-arithmetic helpers -/

theorem exists_slot (c r j : Nat) (hr : r < c) (hj : j < c) :
    ∃ i, i < c ∧ (r + i) % c = j := by
  refine ⟨(j + c - r) % c, Nat.mod_lt _ (by omega), ?_⟩
  rw [Nat.add_mod_mod]
  have h1 : r + (j + c - r) = j + c := by omega
  rw [h1, Nat.add_mod_right, Nat.mod_eq_of_lt hj]

theorem slot_inj (c r : Nat) (hr : r ≤ c) {i k : Nat} (hi : i < c) (hk : k < c)
    (h : (r + i) % c = (r + k) % c) : i = k := by
  have h2 : ((r + i) % c + (c - r)) % c = ((r + k) % c + (c - r)) % c := by rw [h]
  rw [Nat.mod_add_mod, Nat.mod_add_mod] at h2
  have e1 : r + i + (c - r) = i + c := by omega
  have e2 : r + k + (c - r) = k + c := by omega
  rw [e1, e2, Nat.add_mod_right, Nat.add_mod_right,
    Nat.mod_eq_of_lt hi, Nat.mod_eq_of_lt hk] at h2
  exact h2

theorem slot_shift_front (c r i : Nat) (hc : 1 ≤ c) :
    ((r + c - 1) % c + (i + 1)) % c = (r + i) % c := by
  rw [Nat.mod_add_mod]
  have h1 : r + c - 1 + (i + 1) = r + i + c := by omega
  rw [h1, Nat.add_mod_right]

theorem slot_shift_back (c r i : Nat) :
    ((r + 1) % c + i) % c = (r + (i + 1)) % c := by
  rw [Nat.mod_add_mod]
  have h1 : r + 1 + i = r + (i + 1) := by omega
  rw [h1]

theorem popfront_read_restore (c r : Nat) (hc : 1 ≤ c) (hr : r < c) :
    ((r + c - 1) % c + 1) % c = r := by
  rw [Nat.mod_add_mod]
  have h1 : r + c - 1 + 1 = r + c := by omega
  rw [h1, Nat.add_mod_right, Nat.mod_eq_of_lt hr]

/-! ### Write-loop helpers: the `Clear` loop and the copy loops of `resize`
and `Clone` are `foldl`s over `List.range`; these lemmas characterise their
length and contents. -/

theorem clearFold_length [Inhabited T] (l : List T) (r c m : Nat) :
    ((List.range m).foldl (fun acc i => acc.set ((r + i) % c) (default : T)) l).length
      = l.length := by
  induction m with
  | zero => simp
  | succ k ih => rw [List.range_succ, List.foldl_append]; simp [ih]

theorem clearFold_getD_hit [Inhabited T] (l : List T) (r c m j : Nat) (hj : j < l.length)
    (hhit : ∃ i, i < m ∧ (r + i) % c = j) :
    ((List.range m).foldl (fun acc i => acc.set ((r + i) % c) (default : T)) l).getD j default
      = default := by
  induction m with
  | zero => obtain ⟨i, hi, _⟩ := hhit; omega
  | succ k ih =>
    rw [List.range_succ, List.foldl_append]
    simp only [List.foldl_cons, List.foldl_nil]
    by_cases hk : (r + k) % c = j
    · rw [hk]
      exact getD_set_self _ j _ _ (by rw [clearFold_length]; exact hj)
    · rw [getD_set_ne _ _ _ _ _ hk]
      obtain ⟨i, hi, hij⟩ := hhit
      have hik : i < k := by
        rcases Nat.lt_succ_iff_lt_or_eq.mp hi with h | h
        · exact h
        · subst h; exact absurd hij hk
      exact ih ⟨i, hik, hij⟩

theorem clearFold_getD_miss [Inhabited T] (l : List T) (r c m j : Nat)
    (hmiss : ∀ i, i < m → (r + i) % c ≠ j) :
    ((List.range m).foldl (fun acc i => acc.set ((r + i) % c) (default : T)) l).getD j default
      = l.getD j default := by
  induction m with
  | zero => simp
  | succ k ih =>
    rw [List.range_succ, List.foldl_append]
    simp only [List.foldl_cons, List.foldl_nil]
    rw [getD_set_ne _ _ _ _ _ (hmiss k (by omega))]
    exact ih (fun i hi => hmiss i (by omega))

theorem copyFold_length [Inhabited T] (start : List T) (g : Nat → T) (m : Nat) :
    ((List.range m).foldl (fun acc i => acc.set i (g i)) start).length = start.length := by
  induction m with
  | zero => simp
  | succ k ih => rw [List.range_succ, List.foldl_append]; simp [ih]

theorem copyFold_getD_lt [Inhabited T] (start : List T) (g : Nat → T) (m j : Nat)
    (hj1 : j < m) (hj2 : j < start.length) :
    ((List.range m).foldl (fun acc i => acc.set i (g i)) start).getD j default = g j := by
  induction m with
  | zero => omega
  | succ k ih =>
    rw [List.range_succ, List.foldl_append]
    simp only [List.foldl_cons, List.foldl_nil]
    by_cases hk : j = k
    · subst hk
      exact getD_set_self _ j _ _ (by rw [copyFold_length]; exact hj2)
    · rw [getD_set_ne _ _ _ _ _ (by omega)]
      exact ih (by omega)

theorem copyFold_getD_ge [Inhabited T] (start : List T) (g : Nat → T) (m j : Nat)
    (h : m ≤ j) :
    ((List.range m).foldl (fun acc i => acc.set i (g i)) start).getD j default
      = start.getD j default := by
  induction m with
  | zero => simp
  | succ k ih =>
    rw [List.range_succ, List.foldl_append]
    simp only [List.foldl_cons, List.foldl_nil]
    rw [getD_set_ne _ _ _ _ _ (by omega)]
    exact ih (by omega)

/-! ### Invariant preservation, one lemma per mutating operation -/

theorem Inv_New [Inhabited T] (cap : Int) (b : Buffer T) (h : New T cap = some b) :
    Inv b := by
  unfold New at h
  split at h
  · exact absurd h (by simp)
  · next hcap =>
    obtain rfl : ({ buf := List.replicate cap.toNat default, r := 0, n := 0 } : Buffer T) = b :=
      Option.some.inj h
    refine ⟨?_, ?_, ?_, ?_⟩
    · simp; omega
    · simp; omega
    · simp
    · intro j hj _
      exact getD_replicate _ _ _

theorem Inv_PushBack [Inhabited T] (b : Buffer T) (v : T) (h : Inv b) :
    Inv (b.PushBack v).1 := by
  obtain ⟨hc, hr, hn, hh⟩ := h
  unfold Buffer.PushBack
  dsimp only
  split
  · next hfull =>
    refine ⟨?_, ?_, ?_, ?_⟩
    · simpa using hc
    · simpa using Nat.mod_lt _ (by omega)
    · simpa using hn
    · intro j hj hdead
      exfalso
      simp only [List.length_set] at hj hdead
      obtain ⟨i, hi, hij⟩ := exists_slot b.buf.length ((b.r + 1) % b.buf.length) j
        (Nat.mod_lt _ (by omega)) hj
      exact hdead i (by omega) hij
  · next hnfull =>
    have harith : b.r + (b.n + 1) - 1 = b.r + b.n := by omega
    refine ⟨?_, ?_, ?_, ?_⟩
    · simpa using hc
    · simpa using hr
    · simp; omega
    · intro j hj hdead
      simp only [List.length_set] at hj hdead
      rw [harith, getD_set_ne _ _ _ _ _ (hdead b.n (by omega))]
      exact hh j hj (fun i hi => hdead i (by omega))

theorem Inv_PushFront [Inhabited T] (b : Buffer T) (v : T) (h : Inv b) :
    Inv (b.PushFront v).1 := by
  obtain ⟨hc, hr, hn, hh⟩ := h
  unfold Buffer.PushFront
  dsimp only
  split
  · next hfull =>
    refine ⟨?_, ?_, ?_, ?_⟩
    · simpa using hc
    · simpa using Nat.mod_lt _ (by omega)
    · simpa using hn
    · intro j hj hdead
      exfalso
      simp only [List.length_set] at hj hdead
      obtain ⟨i, hi, hij⟩ := exists_slot b.buf.length ((b.r + b.buf.length - 1) % b.buf.length) j
        (Nat.mod_lt _ (by omega)) hj
      exact hdead i (by omega) hij
  · next hnfull =>
    refine ⟨?_, ?_, ?_, ?_⟩
    · simpa using hc
    · simpa using Nat.mod_lt _ (by omega)
    · simp; omega
    · intro j hj hdead
      simp only [List.length_set] at hj hdead
      have hne : (b.r + b.buf.length - 1) % b.buf.length ≠ j := by
        have h0 := hdead 0 (by omega)
        rwa [Nat.add_zero, Nat.mod_eq_of_lt (Nat.mod_lt _ (by omega))] at h0
      rw [getD_set_ne _ _ _ _ _ hne]
      refine hh j hj (fun i hi => ?_)
      rw [← slot_shift_front b.buf.length b.r i hc]
      exact hdead (i + 1) (by omega)

theorem Inv_PopBack [Inhabited T] (b : Buffer T) (h : Inv b) :
    Inv b.PopBack.1 := by
  obtain ⟨hc, hr, hn, hh⟩ := h
  unfold Buffer.PopBack
  dsimp only
  split
  · exact ⟨hc, hr, hn, hh⟩
  · next hne0 =>
    refine ⟨?_, ?_, ?_, ?_⟩
    · simpa using hc
    · simpa using hr
    · simp; omega
    · intro j hj hdead
      simp only [List.length_set] at hj hdead
      by_cases hjp : (b.r + b.n - 1) % b.buf.length = j
      · rw [← hjp]
        exact getD_set_self _ _ _ _ (Nat.mod_lt _ (by omega))
      · rw [getD_set_ne _ _ _ _ _ hjp]
        refine hh j hj (fun i hi => ?_)
        by_cases hilast : i = b.n - 1
        · subst hilast
          have : b.r + (b.n - 1) = b.r + b.n - 1 := by omega
          rw [this]
          exact hjp
        · exact hdead i (by omega)

theorem Inv_PopFront [Inhabited T] (b : Buffer T) (h : Inv b) :
    Inv b.PopFront.1 := by
  obtain ⟨hc, hr, hn, hh⟩ := h
  unfold Buffer.PopFront
  dsimp only
  split
  · exact ⟨hc, hr, hn, hh⟩
  · next hne0 =>
    refine ⟨?_, ?_, ?_, ?_⟩
    · simpa using hc
    · simpa using Nat.mod_lt _ (by omega)
    · simp; omega
    · intro j hj hdead
      simp only [List.length_set] at hj hdead
      by_cases hjr : b.r = j
      · rw [← hjr]
        exact getD_set_self _ _ _ _ hr
      · rw [getD_set_ne _ _ _ _ _ hjr]
        refine hh j hj (fun i hi => ?_)
        rcases Nat.eq_zero_or_pos i with hi0 | hipos
        · subst hi0
          rwa [Nat.add_zero, Nat.mod_eq_of_lt hr]
        · have hi1 : b.r + i = b.r + (i - 1 + 1) := by omega
          rw [hi1, ← slot_shift_back b.buf.length b.r (i - 1)]
          exact hdead (i - 1) (by omega)

theorem Inv_Set [Inhabited T] (b : Buffer T) (i : Int) (v : T) (h : Inv b) :
    Inv (b.Set i v).1 := by
  obtain ⟨hc, hr, hn, hh⟩ := h
  unfold Buffer.Set
  split
  · exact ⟨hc, hr, hn, hh⟩
  · next hin =>
    refine ⟨?_, ?_, ?_, ?_⟩
    · simpa using hc
    · simpa using hr
    · simpa using hn
    · intro j hj hdead
      simp only [List.length_set] at hj hdead
      have hlt : i.toNat < b.n := by omega
      rw [getD_set_ne _ _ _ _ _ (hdead i.toNat hlt)]
      exact hh j hj hdead

theorem Inv_Clear [Inhabited T] (b : Buffer T) (h : Inv b) : Inv b.Clear := by
  obtain ⟨hc, hr, hn, hh⟩ := h
  unfold Buffer.Clear
  dsimp only
  refine ⟨?_, ?_, ?_, ?_⟩
  · simpa [clearFold_length] using hc
  · simpa [clearFold_length] using hc
  · simp
  · intro j hj _
    simp only [clearFold_length] at hj
    by_cases hhit : ∃ i, i < b.n ∧ (b.r + i) % b.buf.length = j
    · exact clearFold_getD_hit _ _ _ _ _ hj hhit
    · push_neg at hhit
      rw [clearFold_getD_miss _ _ _ _ _ hhit]
      exact hh j hj hhit

theorem Inv_resize_aux [Inhabited T] (b : Buffer T) (m : Nat) (h1 : 1 ≤ m)
    (h2 : b.n ≤ m) : Inv (b.resize m) := by
  unfold Buffer.resize
  dsimp only
  refine ⟨?_, ?_, ?_, ?_⟩
  · simpa [copyFold_length] using h1
  · simpa [copyFold_length] using h1
  · simpa [copyFold_length] using h2
  · intro j hj hdead
    simp only [copyFold_length, List.length_replicate] at hj hdead
    have hge : b.n ≤ j := by
      by_contra hlt
      exact hdead j (by omega) (by rw [Nat.zero_add, Nat.mod_eq_of_lt hj])
    rw [copyFold_getD_ge _ _ _ _ hge]
    exact getD_replicate _ _ _

theorem Inv_Resize [Inhabited T] (b : Buffer T) (m : Int) (b2 : Buffer T)
    (h : Inv b) (hres : b.Resize m = some b2) : Inv b2 := by
  unfold Buffer.Resize at hres
  split at hres
  · exact absurd hres (by simp)
  · next hm1 =>
    split at hres
    · next => exact (Option.some.inj hres) ▸ h
    · next hmc =>
      split at hres
      · next hshrink =>
        refine (Option.some.inj hres) ▸ Inv_resize_aux _ _ (by omega) (by simp)
      · next hkeep =>
        exact (Option.some.inj hres) ▸ Inv_resize_aux _ _ (by omega) (by omega)

theorem Inv_Clone [Inhabited T] (b : Buffer T) (h : Inv b) : Inv b.Clone := by
  obtain ⟨hc, hr, hn, hh⟩ := h
  unfold Buffer.Clone
  dsimp only
  refine ⟨?_, ?_, ?_, ?_⟩
  · simpa [copyFold_length] using hc
  · simpa [copyFold_length] using hc
  · simpa [copyFold_length] using hn
  · intro j hj hdead
    simp only [copyFold_length, List.length_replicate] at hj hdead
    have hge : b.n ≤ j := by
      by_contra hlt
      exact hdead j (by omega) (by rw [Nat.zero_add, Nat.mod_eq_of_lt hj])
    rw [copyFold_getD_ge _ _ _ _ hge]
    exact getD_replicate _ _ _

/-! ### Claim C1 -/

/-- C1: every buffer state reachable through the public interface satisfies
the global invariant: capacity `C ≥ 1`, `read < C`, `count ≤ C`, and every
physical slot outside the live logical range `[read, read+count) mod C` holds
the element type's default value.  The invariant therefore holds after every
public operation; the read-only operations (`Front`, `Back`, `At`, `ToSlice`,
`All`, `Values`, `Backward`, `Do`) are pure functions of the state in this
embedding and preserve it trivially. -/
theorem C1_global_invariant [Inhabited T] (b : Buffer T) (h : Reachable b) : Inv b := by
  induction h with
  | new cap b hnew => exact Inv_New cap b hnew
  | pushBack b v _ ih => exact Inv_PushBack b v ih
  | pushFront b v _ ih => exact Inv_PushFront b v ih
  | popBack b _ ih => exact Inv_PopBack b ih
  | popFront b _ ih => exact Inv_PopFront b ih
  | set b i v _ ih => exact Inv_Set b i v ih
  | clear b _ ih => exact Inv_Clear b ih
  | resize b m b2 _ hres ih => exact Inv_Resize b m b2 ih hres
  | clone b _ ih => exact Inv_Clone b ih

/-- Witness for C1 at a concrete reachable state: push 7 into `New Int 2`. -/
theorem C1_global_invariant_witness :
    Inv ((Buffer.PushBack ⟨[0, 0], 0, 0⟩ 7).1 : Buffer Int) :=
  C1_global_invariant _
    (Reachable.pushBack _ 7 (Reachable.new 2 (⟨[0, 0], 0, 0⟩ : Buffer Int) (by decide)))

/-! ### Claim C2 -/

/-- C2 as stated is false at capacity 1: the buffer `⟨[0], 0, 1⟩` is a valid
full buffer, `PushBack 5` reports the overwrite, but the new `Front` is the
pushed value `5`, not the (non-existent) old element at logical index 1,
whose `At` lookup returns the default `0`. -/
theorem C2_overwrite_counterexample :
    Inv (⟨[0], 0, 1⟩ : Buffer Int) ∧
    Buffer.Full (⟨[0], 0, 1⟩ : Buffer Int) = true ∧
    (Buffer.PushBack (⟨[0], 0, 1⟩ : Buffer Int) 5).2 = true ∧
    ¬ ((Buffer.PushBack (⟨[0], 0, 1⟩ : Buffer Int) 5).1.Front.1
        = ((⟨[0], 0, 1⟩ : Buffer Int).At 1).1) := by decide

/-- C2 amended: on every valid full buffer of capacity at least 2, `PushBack v`
returns the overwrite flag, keeps `Len` unchanged, makes the new `Front` the
old element at logical index 1 and the new `Back` the pushed value; dually,
`PushFront v` returns the overwrite flag, keeps `Len` unchanged, makes the new
`Front` the pushed value and the new `Back` the old element at logical index
`Len() − 2`. -/
theorem C2_full_push_ends [Inhabited T] (b : Buffer T) (v : T) (hInv : Inv b)
    (hfull : b.n = b.buf.length) (h2 : 2 ≤ b.buf.length) :
    (b.PushBack v).2 = true ∧ (b.PushBack v).1.Len = b.Len ∧
    (b.At 1).2 = true ∧ (b.PushBack v).1.Front = ((b.At 1).1, true) ∧
    (b.PushBack v).1.Back = (v, true) ∧
    (b.PushFront v).2 = true ∧ (b.PushFront v).1.Len = b.Len ∧
    (b.At ((b.Len : Int) - 2)).2 = true ∧
    (b.PushFront v).1.Front = (v, true) ∧
    (b.PushFront v).1.Back = ((b.At ((b.Len : Int) - 2)).1, true) := by
  obtain ⟨hc, hr, hn, hh⟩ := hInv
  have hn2 : 2 ≤ b.n := hfull ▸ h2
  have hwb : ((b.r + 1) % b.buf.length + b.n - 1) % b.buf.length = b.r := by
    have e1 : (b.r + 1) % b.buf.length + b.n - 1 = (b.r + 1) % b.buf.length + (b.n - 1) := by
      omega
    rw [e1, slot_shift_back]
    have e2 : b.r + (b.n - 1 + 1) = b.r + b.buf.length := by omega
    rw [e2, Nat.add_mod_right, Nat.mod_eq_of_lt hr]
  have hr1 : (b.r + 1) % b.buf.length ≠ b.r := by
    intro hcontra
    rcases Nat.lt_or_ge (b.r + 1) b.buf.length with hlt | hge
    · rw [Nat.mod_eq_of_lt hlt] at hcontra; omega
    · have : b.r + 1 = b.buf.length := by omega
      rw [this, Nat.mod_self] at hcontra; omega
  have hwf : (b.r + b.buf.length - 1) % b.buf.length + b.n - 1
      = (b.r + b.buf.length - 1) % b.buf.length + (b.n - 1) := by omega
  have hqf : ((b.r + b.buf.length - 1) % b.buf.length + (b.n - 1)) % b.buf.length
      = (b.r + (b.n - 2)) % b.buf.length := by
    have e1 : b.n - 1 = b.n - 2 + 1 := by omega
    rw [e1, slot_shift_front _ _ _ (by omega)]
  have hrf : (b.r + b.buf.length - 1) % b.buf.length < b.buf.length :=
    Nat.mod_lt _ (by omega)
  have hqne : (b.r + (b.n - 2)) % b.buf.length ≠ (b.r + b.buf.length - 1) % b.buf.length := by
    intro hcontra
    have e1 : b.r + b.buf.length - 1 = b.r + (b.buf.length - 1) := by omega
    rw [e1] at hcontra
    have := slot_inj b.buf.length b.r (le_of_lt hr) (by omega) (by omega) hcontra
    omega
  have hAt1 : ¬ ((1 : Int) < 0 ∨ (b.n : Int) ≤ 1) := by
    push_neg
    constructor <;> omega
  have hAtn2 : ¬ ((b.n : Int) - 2 < 0 ∨ (b.n : Int) ≤ (b.n : Int) - 2) := by
    push_neg
    constructor <;> omega
  have htn2 : ((b.n : Int) - 2).toNat = b.n - 2 := by omega
  refine ⟨?_, ?_, ?_, ?_, ?_, ?_, ?_, ?_, ?_, ?_⟩
  · simp [Buffer.PushBack, hfull]
  · simp [Buffer.PushBack, Buffer.Len, hfull]
  · rw [Buffer.At, if_neg hAt1]
  · simp only [Buffer.PushBack]
    rw [if_pos hfull]
    simp only [Buffer.Front]
    rw [if_neg (by omega), hwb, getD_set_ne _ _ _ _ _ (Ne.symm hr1)]
    rw [Buffer.At, if_neg hAt1]
    simp
  · simp only [Buffer.PushBack]
    rw [if_pos hfull]
    simp only [Buffer.Back, List.length_set]
    rw [if_neg (by omega), hwb, getD_set_self _ _ _ _ hr]
  · simp [Buffer.PushFront, hfull]
  · simp [Buffer.PushFront, Buffer.Len, hfull]
  · rw [Buffer.Len, Buffer.At, if_neg hAtn2]
  · simp only [Buffer.PushFront]
    rw [if_pos hfull]
    simp only [Buffer.Front]
    rw [if_neg (by omega), getD_set_self _ _ _ _ hrf]
  · simp only [Buffer.PushFront]
    rw [if_pos hfull]
    simp only [Buffer.Back, Buffer.Len, List.length_set]
    rw [if_neg (by omega), hwf, hqf, getD_set_ne _ _ _ _ _ (Ne.symm hqne)]
    rw [Buffer.At, if_neg hAtn2, htn2]

/-- Witness for the amended C2 on the full buffer `[1, 2]` with `v = 9`. -/
theorem C2_full_push_ends_witness :
    (Buffer.PushBack (⟨[1, 2], 0, 2⟩ : Buffer Int) 9).1.Front = (2, true) ∧
    (Buffer.PushBack (⟨[1, 2], 0, 2⟩ : Buffer Int) 9).1.Back = (9, true) ∧
    (Buffer.PushFront (⟨[1, 2], 0, 2⟩ : Buffer Int) 9).1.Front = (9, true) ∧
    (Buffer.PushFront (⟨[1, 2], 0, 2⟩ : Buffer Int) 9).1.Back = (1, true) := by
  have h := C2_full_push_ends (⟨[1, 2], 0, 2⟩ : Buffer Int) 9 (by decide) (by decide)
    (by decide)
  refine ⟨?_, ?_, ?_, ?_⟩
  · rw [h.2.2.2.1]; decide
  · exact h.2.2.2.2.1
  · exact h.2.2.2.2.2.2.2.2.1
  · rw [h.2.2.2.2.2.2.2.2.2]; decide

/-! ### Claim C3 -/

/-- C3: on every valid non-full buffer, `PushBack v` followed by `PopBack`
returns `v` with success and restores exactly the prior state (read position,
count and every slot); likewise `PushFront v` followed by `PopFront`.  The
restored slot equals its old contents because the vacated slot held the
default value by the slot-hygiene invariant. -/
theorem C3_push_pop_roundtrip [Inhabited T] (b : Buffer T) (v : T) (hInv : Inv b)
    (hnf : b.n < b.buf.length) :
    (b.PushBack v).1.PopBack = (b, v, true) ∧ (b.PushFront v).1.PopFront = (b, v, true) := by
  obtain ⟨hc, hr, hn, hh⟩ := hInv
  have hnfull : ¬ b.n = b.buf.length := by omega
  have harith : b.r + (b.n + 1) - 1 = b.r + b.n := by omega
  have hp : (b.r + b.n) % b.buf.length < b.buf.length := Nat.mod_lt _ (by omega)
  have hpdead : b.buf.getD ((b.r + b.n) % b.buf.length) default = default := by
    refine hh _ hp (fun i hi heq => ?_)
    have := slot_inj b.buf.length b.r (le_of_lt hr) (by omega) (by omega) heq
    omega
  have hr1lt : (b.r + b.buf.length - 1) % b.buf.length < b.buf.length :=
    Nat.mod_lt _ (by omega)
  have hr1dead : b.buf.getD ((b.r + b.buf.length - 1) % b.buf.length) default = default := by
    refine hh _ hr1lt (fun i hi heq => ?_)
    have e1 : b.r + b.buf.length - 1 = b.r + (b.buf.length - 1) := by omega
    rw [e1] at heq
    have := slot_inj b.buf.length b.r (le_of_lt hr) (by omega) (by omega) heq
    omega
  constructor
  · simp only [Buffer.PushBack]
    rw [if_neg hnfull]
    simp only [Buffer.PopBack]
    rw [if_neg (by omega : ¬ b.n + 1 = 0)]
    simp only [List.length_set, harith]
    rw [getD_set_self _ _ _ _ hp, List.set_set, ← hpdead, set_getD_self _ _ _ hp]
    simp
  · simp only [Buffer.PushFront]
    rw [if_neg hnfull]
    simp only [Buffer.PopFront]
    rw [if_neg (by omega : ¬ b.n + 1 = 0)]
    simp only [List.length_set]
    rw [getD_set_self _ _ _ _ hr1lt, List.set_set, ← hr1dead, set_getD_self _ _ _ hr1lt,
      popfront_read_restore _ _ hc hr]
    simp

/-- Witness for C3 on the non-full buffer `[4, 0, 0]` (one live element). -/
theorem C3_push_pop_roundtrip_witness :
    (Buffer.PushBack (⟨[4, 0, 0], 0, 1⟩ : Buffer Int) 8).1.PopBack
      = ((⟨[4, 0, 0], 0, 1⟩ : Buffer Int), 8, true) ∧
    (Buffer.PushFront (⟨[4, 0, 0], 0, 1⟩ : Buffer Int) 8).1.PopFront
      = ((⟨[4, 0, 0], 0, 1⟩ : Buffer Int), 8, true) :=
  C3_push_pop_roundtrip (⟨[4, 0, 0], 0, 1⟩ : Buffer Int) 8 (by decide) (by decide)

/-! ### Claim C4 -/

/-- C4: `At i` succeeds exactly when `0 ≤ i < Len()`, in which case it reads
physical slot `(read + i) mod C`; out of bounds it returns the default value
with a `false` flag and `Set` reports `false`; `PopFront`, `PopBack`, `Front`
and `Back` on an empty buffer return the default value with a `false` flag. -/
theorem C4_bounds_and_failure [Inhabited T] (b : Buffer T) (i : Int) (v : T) :
    ((b.At i).2 = true ↔ 0 ≤ i ∧ i < (b.n : Int)) ∧
    (0 ≤ i → i < (b.n : Int) →
      b.At i = (b.buf.getD ((b.r + i.toNat) % b.buf.length) default, true)) ∧
    ((i < 0 ∨ (b.n : Int) ≤ i) → b.At i = (default, false) ∧ (b.Set i v).2 = false) ∧
    (b.n = 0 → b.PopFront = (b, default, false) ∧ b.PopBack = (b, default, false) ∧
      b.Front = (default, false) ∧ b.Back = (default, false)) := by
  refine ⟨?_, ?_, ?_, ?_⟩
  · by_cases h : i < 0 ∨ (b.n : Int) ≤ i
    · rw [Buffer.At, if_pos h]
      simp
      omega
    · rw [Buffer.At, if_neg h]
      simp
      omega
  · intro h0 hlt
    rw [Buffer.At, if_neg (by omega)]
  · intro h
    constructor
    · rw [Buffer.At, if_pos h]
    · rw [Buffer.Set, if_pos h]
  · intro h
    refine ⟨?_, ?_, ?_, ?_⟩
    · rw [Buffer.PopFront, if_pos h]
    · rw [Buffer.PopBack, if_pos h]
    · rw [Buffer.Front, if_pos h]
    · rw [Buffer.Back, if_pos h]

/-- Witness for C4: in-bounds and out-of-bounds `At`/`Set` on `[7]` with one
live element, and the empty-buffer cases on a zeroed capacity-1 buffer. -/
theorem C4_bounds_and_failure_witness :
    Buffer.At (⟨[7], 0, 1⟩ : Buffer Int) 0 = (7, true) ∧
    Buffer.At (⟨[7], 0, 1⟩ : Buffer Int) 5 = (0, false) ∧
    (Buffer.Set (⟨[7], 0, 1⟩ : Buffer Int) 5 3).2 = false ∧
    Buffer.PopFront (⟨[0], 0, 0⟩ : Buffer Int) = ((⟨[0], 0, 0⟩ : Buffer Int), 0, false) ∧
    Buffer.Back (⟨[0], 0, 0⟩ : Buffer Int) = (0, false) := by
  have h1 := C4_bounds_and_failure (⟨[7], 0, 1⟩ : Buffer Int) 5 3
  have h2 := C4_bounds_and_failure (⟨[0], 0, 0⟩ : Buffer Int) 0 0
  refine ⟨?_, ?_, ?_, ?_, ?_⟩
  · rw [(C4_bounds_and_failure (⟨[7], 0, 1⟩ : Buffer Int) 0 3).2.1 (by decide) (by decide)]
    decide
  · exact (h1.2.2.1 (by decide)).1
  · exact (h1.2.2.1 (by decide)).2
  · exact (h2.2.2.2 rfl).1
  · exact (h2.2.2.2 rfl).2.2.2

/-! ### Claim C10 -/

/-- C10: failed operations are atomic: on an empty buffer `PopFront` and
`PopBack` return the state unchanged, and `Set` with an out-of-bounds index
returns the state unchanged.  `At` is embedded as a pure function of the
state (as in the source it performs no write), so it cannot change it. -/
theorem C10_failed_ops_atomic [Inhabited T] (b : Buffer T) (i : Int) (v : T) :
    (b.n = 0 → b.PopFront.1 = b ∧ b.PopBack.1 = b) ∧
    ((i < 0 ∨ (b.n : Int) ≤ i) → (b.Set i v).1 = b) := by
  refine ⟨fun h => ⟨?_, ?_⟩, fun h => ?_⟩
  · rw [Buffer.PopFront, if_pos h]
  · rw [Buffer.PopBack, if_pos h]
  · rw [Buffer.Set, if_pos h]

/-- Witness for C10 on an empty capacity-1 buffer and an out-of-bounds index. -/
theorem C10_failed_ops_atomic_witness :
    (Buffer.PopFront (⟨[0], 0, 0⟩ : Buffer Int)).1 = (⟨[0], 0, 0⟩ : Buffer Int) ∧
    (Buffer.PopBack (⟨[0], 0, 0⟩ : Buffer Int)).1 = (⟨[0], 0, 0⟩ : Buffer Int) ∧
    (Buffer.Set (⟨[0], 0, 0⟩ : Buffer Int) (-3) 4).1 = (⟨[0], 0, 0⟩ : Buffer Int) := by
  have h := C10_failed_ops_atomic (⟨[0], 0, 0⟩ : Buffer Int) (-3) 4
  exact ⟨(h.1 rfl).1, (h.1 rfl).2, h.2 (by decide)⟩

/-! ### Claim C5 -/

/-- C5 as stated is false: it asserts that *in all cases* `Resize` ends with
`read == 0`, but `Resize(n)` with `n == Cap()` returns without touching the
state.  On the valid buffer with slots `[0, 5]`, `read = 1`, `count = 1`,
`Resize 2` is the no-op case and the final read position is `1`, not `0`. -/
theorem C5_resize_counterexample :
    Inv (⟨[0, 5], 1, 1⟩ : Buffer Int) ∧
    Buffer.Resize (⟨[0, 5], 1, 1⟩ : Buffer Int) 2 = some (⟨[0, 5], 1, 1⟩ : Buffer Int) ∧
    Option.map Buffer.r (Buffer.Resize (⟨[0, 5], 1, 1⟩ : Buffer Int) 2) = some 1 := by
  decide

/-- C5 amended: for `m ≥ 1`, `Resize m` with `m == Cap()` is a no-op (the
whole state, read position included, is unchanged); when `m ≠ Cap()` the
count is truncated to `m` if `m < Len()`, and the operation ends with a
backing store of length `m` holding the (possibly truncated) logical elements
`[0, count)` at physical positions `[0, count)`, `read == 0`, and every
position from `count` on holding the default value. -/
theorem C5_resize_spec [Inhabited T] (b : Buffer T) (m : Int) (h1 : 1 ≤ m)
    (_hc : 1 ≤ b.buf.length) :
    (m = (b.buf.length : Int) → b.Resize m = some b) ∧
    (m ≠ (b.buf.length : Int) → ∀ b2, b.Resize m = some b2 →
      b2.buf.length = m.toNat ∧ b2.r = 0 ∧ b2.n = min b.n m.toNat ∧
      (∀ k, k < b2.n →
        b2.buf.getD k default = b.buf.getD ((b.r + k) % b.buf.length) default) ∧
      (∀ k, b2.n ≤ k → b2.buf.getD k default = default)) := by
  constructor
  · intro heq
    rw [Buffer.Resize, if_neg (by omega), if_pos heq]
  · intro hne b2 hres
    rw [Buffer.Resize, if_neg (by omega), if_neg hne] at hres
    split at hres
    · next hshrink =>
      obtain rfl := Option.some.inj hres
      unfold Buffer.resize
      dsimp only
      refine ⟨?_, rfl, ?_, ?_, ?_⟩
      · rw [copyFold_length, List.length_replicate]
      · omega
      · intro k hk
        exact copyFold_getD_lt _ _ _ _ hk (by simp; omega)
      · intro k hk
        rw [copyFold_getD_ge _ _ _ _ hk]
        exact getD_replicate _ _ _
    · next hkeep =>
      obtain rfl := Option.some.inj hres
      unfold Buffer.resize
      dsimp only
      refine ⟨?_, rfl, ?_, ?_, ?_⟩
      · rw [copyFold_length, List.length_replicate]
      · omega
      · intro k hk
        exact copyFold_getD_lt _ _ _ _ hk (by simp; omega)
      · intro k hk
        rw [copyFold_getD_ge _ _ _ _ hk]
        exact getD_replicate _ _ _

/-- Witness for the amended C5: shrinking the full wrapped buffer `[2, 3, 1]`
(read 2, logical contents `[1, 2, 3]`) to capacity 2 yields `[1, 2]`. -/
theorem C5_resize_spec_witness :
    (⟨[1, 2], 0, 2⟩ : Buffer Int).buf.length = (2 : Int).toNat ∧
    (⟨[1, 2], 0, 2⟩ : Buffer Int).r = 0 ∧
    (⟨[1, 2], 0, 2⟩ : Buffer Int).n = min 3 (2 : Int).toNat ∧
    (⟨[1, 2], 0, 2⟩ : Buffer Int).buf.getD 0 default
      = (⟨[2, 3, 1], 2, 3⟩ : Buffer Int).buf.getD ((2 + 0) % 3) default := by
  have h := (C5_resize_spec (⟨[2, 3, 1], 2, 3⟩ : Buffer Int) 2 (by decide) (by decide)).2
    (by decide) (⟨[1, 2], 0, 2⟩ : Buffer Int) (by decide)
  exact ⟨h.1, h.2.1, h.2.2.1, h.2.2.2.1 0 (by decide)⟩

/-! ### Claim C6 -/

/-- C6: `Clone` returns a buffer with the same capacity, the same count,
`read = 0`, positions `[0, count)` holding the source's logical elements in
order, and every position from `count` on holding the default value.  The
clone is built from fresh storage as a pure value, so in this embedding it is
automatically independent of the source: mutating either produces a new value
and leaves the other term unchanged. -/
theorem C6_clone_spec [Inhabited T] (b : Buffer T) (hInv : Inv b) :
    b.Clone.Cap = b.Cap ∧ b.Clone.n = b.n ∧ b.Clone.r = 0 ∧
    (∀ k, k < b.n →
      b.Clone.buf.getD k default = b.buf.getD ((b.r + k) % b.buf.length) default) ∧
    (∀ k, b.n ≤ k → b.Clone.buf.getD k default = default) := by
  obtain ⟨hc, hr, hn, hh⟩ := hInv
  unfold Buffer.Clone Buffer.Cap
  dsimp only
  refine ⟨?_, rfl, rfl, ?_, ?_⟩
  · rw [copyFold_length, List.length_replicate]
  · intro k hk
    exact copyFold_getD_lt _ _ _ _ hk (by simp; omega)
  · intro k hk
    rw [copyFold_getD_ge _ _ _ _ hk]
    exact getD_replicate _ _ _

/-- Witness for C6 on the full wrapped buffer `[2, 3, 1]` (read 2, logical
contents `[1, 2, 3]`). -/
theorem C6_clone_spec_witness :
    (Buffer.Clone (⟨[2, 3, 1], 2, 3⟩ : Buffer Int)).Cap = 3 ∧
    (Buffer.Clone (⟨[2, 3, 1], 2, 3⟩ : Buffer Int)).r = 0 ∧
    (Buffer.Clone (⟨[2, 3, 1], 2, 3⟩ : Buffer Int)).buf.getD 0 default
      = (⟨[2, 3, 1], 2, 3⟩ : Buffer Int).buf.getD ((2 + 0) % 3) default := by
  have h := C6_clone_spec (⟨[2, 3, 1], 2, 3⟩ : Buffer Int) (by decide)
  exact ⟨h.1, h.2.2.1, h.2.2.2.1 0 (by decide)⟩

/-! ### Claim C7 -/

/-- C7: `Backward` yields exactly `Len()` pairs, and the `k`-th yielded pair
is `(Len()−1−k, At(Len()−1−k).value)`: the index component is the original
front-based logical index, in decreasing order. -/
theorem C7_backward_pairs [Inhabited T] (b : Buffer T) :
    b.Backward.length = b.Len ∧
    ∀ k, k < b.Len →
      b.Backward.getD k (0, default)
        = (b.Len - 1 - k, (b.At ((b.Len : Int) - 1 - k)).1) := by
  constructor
  · simp [Buffer.Backward, Buffer.Len]
  · intro k hk
    rw [Buffer.Len] at hk ⊢
    have hlt : k < b.Backward.length := by
      simpa [Buffer.Backward] using hk
    rw [List.getD_eq_getElem _ _ hlt]
    unfold Buffer.Backward
    simp only [List.getElem_map, List.getElem_reverse, List.length_reverse,
      List.length_range, List.getElem_range]
    rw [Buffer.At, if_neg (by omega)]
    have ht : ((b.n : Int) - 1 - (k : Int)).toNat = b.n - 1 - k := by omega
    rw [ht]

/-- Witness for C7 on the full wrapped buffer `[2, 3, 1]` (read 2, logical
contents `[1, 2, 3]`): the first yielded pair is `(2, 3)`. -/
theorem C7_backward_pairs_witness :
    (Buffer.Backward (⟨[2, 3, 1], 2, 3⟩ : Buffer Int)).length = 3 ∧
    (Buffer.Backward (⟨[2, 3, 1], 2, 3⟩ : Buffer Int)).getD 0 (0, default) = (2, 3) := by
  have h := C7_backward_pairs (⟨[2, 3, 1], 2, 3⟩ : Buffer Int)
  refine ⟨h.1, ?_⟩
  rw [h.2 0 (by decide)]
  decide

/-! ### Claim C8 -/

/-- C8: `ToSlice` returns a sequence of length `Len()` whose `k`-th element
is the value `At k` returns.  The slice is freshly allocated and computed as
a pure value from the current state, so later mutation of the buffer cannot
change it in this embedding. -/
theorem C8_toSlice_spec [Inhabited T] (b : Buffer T) :
    b.ToSlice.length = b.Len ∧
    ∀ k, k < b.Len → b.ToSlice.getD k default = (b.At (k : Int)).1 := by
  constructor
  · simp [Buffer.ToSlice, Buffer.Len]
  · intro k hk
    rw [Buffer.Len] at hk
    have hlt : k < b.ToSlice.length := by
      simpa [Buffer.ToSlice] using hk
    rw [List.getD_eq_getElem _ _ hlt]
    unfold Buffer.ToSlice
    simp only [List.getElem_map, List.getElem_range]
    rw [Buffer.At, if_neg (by omega)]
    have ht : ((k : Nat) : Int).toNat = k := by omega
    rw [ht]

/-- Witness for C8 on the full wrapped buffer `[2, 3, 1]` (read 2). -/
theorem C8_toSlice_spec_witness :
    (Buffer.ToSlice (⟨[2, 3, 1], 2, 3⟩ : Buffer Int)).length = 3 ∧
    (Buffer.ToSlice (⟨[2, 3, 1], 2, 3⟩ : Buffer Int)).getD 0 default = 1 := by
  have h := C8_toSlice_spec (⟨[2, 3, 1], 2, 3⟩ : Buffer Int)
  refine ⟨h.1, ?_⟩
  rw [h.2 0 (by decide)]
  decide

/-! ### Claim C9 -/

/-- C9: `New` and `Resize` signal the fatal fault (modelled by `none`) exactly
when their argument is below 1; for arguments at least 1 they return normally,
and a successful `New cap` yields capacity `cap`, `read = 0`, `count = 0`,
and every slot holding the default value. -/
theorem C9_new_resize_contract [Inhabited T] (cap m : Int) (b : Buffer T) :
    (New T cap = none ↔ cap < 1) ∧
    (b.Resize m = none ↔ m < 1) ∧
    (∀ b2, New T cap = some b2 →
      (b2.buf.length : Int) = cap ∧ b2.r = 0 ∧ b2.n = 0 ∧
      ∀ k, k < b2.buf.length → b2.buf.getD k default = default) := by
  refine ⟨?_, ?_, ?_⟩
  · by_cases h : cap < 1
    · rw [New, if_pos h]
      simp [h]
    · rw [New, if_neg h]
      simp [h]
  · by_cases h : m < 1
    · rw [Buffer.Resize, if_pos h]
      simp [h]
    · rw [Buffer.Resize, if_neg h]
      constructor
      · intro heq
        split at heq
        · simp at heq
        · split at heq <;> simp at heq
      · intro hlt
        exact absurd hlt h
  · intro b2 hnew
    rw [New] at hnew
    split at hnew
    · simp at hnew
    · next h =>
      obtain rfl : ({ buf := List.replicate cap.toNat default, r := 0, n := 0 } : Buffer T) = b2 :=
        Option.some.inj hnew
      refine ⟨?_, rfl, rfl, ?_⟩
      · simp
        omega
      · intro k _
        exact getD_replicate _ _ _

/-- Witness for C9: `Resize 0` faults, `New Int 3` builds the zeroed buffer
of capacity 3. -/
theorem C9_new_resize_contract_witness :
    Buffer.Resize (⟨[0], 0, 0⟩ : Buffer Int) 0 = none ∧
    ((⟨[0, 0, 0], 0, 0⟩ : Buffer Int).buf.length : Int) = 3 ∧
    (⟨[0, 0, 0], 0, 0⟩ : Buffer Int).buf.getD 1 default = default := by
  have h := C9_new_resize_contract 3 0 (⟨[0], 0, 0⟩ : Buffer Int)
  have h3 := h.2.2 (⟨[0, 0, 0], 0, 0⟩ : Buffer Int) (by decide)
  exact ⟨h.2.1.mpr (by decide), h3.1, h3.2.2.2 1 (by decide)⟩

end Gocircular
